import Mathlib

set_option linter.unusedSectionVars false
set_option linter.unusedVariables false

/-!
Verification of the range-check gate layer (kimchi `circuits/polynomials/range_check/gate.rs`)
and of the generalized dynamic-selector engine (o1vm pickles), via a shallow embedding.

Polynomials are represented executably as little-endian coefficient lists over a field.
The external FFT/interpolation service of the source is modelled by Lagrange interpolation
over the listed domain points; its round-trip correctness (evaluate-after-interpolate
reproduces the input values at the nodes) is proved below.
-/

section PolyLib

variable {F : Type} [Field F] [DecidableEq F]

/-- Evaluate a little-endian coefficient list at a point (Horner form). -/
def polyEval (p : List F) (x : F) : F := p.foldr (fun c acc => c + x * acc) 0

/-- Coefficientwise sum of two coefficient lists. -/
def polyAdd : List F → List F → List F
  | [], q => q
  | p, [] => p
  | a :: p, b :: q => (a + b) :: polyAdd p q

/-- Scale a coefficient list by a field element. -/
def polySmul (c : F) (p : List F) : List F := p.map (fun a => c * a)

/-- Product of two coefficient lists. -/
def polyMul : List F → List F → List F
  | [], _ => []
  | a :: p, q => polyAdd (polySmul a q) ((0 : F) :: polyMul p q)

/-- The product of the linear factors `X - a` over the given list. -/
def prodLin (l : List F) : List F := l.foldr (fun a acc => polyMul [-a, 1] acc) [1]

/-- Remove the element at the given index (identity if the index is out of range). -/
def dropIdx : List F → Nat → List F
  | [], _ => []
  | _ :: xs, 0 => xs
  | x :: xs, n + 1 => x :: dropIdx xs n

/-- The pairwise differences `xᵢ - xⱼ`, `j ≠ i`, appearing in the Lagrange denominator. -/
def nodeDiffs (nodes : List F) (i : Nat) : List F :=
  (dropIdx nodes i).map (fun a => nodes.getD i 0 - a)

/-- The `i`-th Lagrange basis polynomial for the given nodes. -/
def lagrangeBasis (nodes : List F) (i : Nat) : List F :=
  polySmul ((nodeDiffs nodes i).prod)⁻¹ (prodLin (dropIdx nodes i))

/-- Accumulate the value-scaled Lagrange basis polynomials over a list of indices. -/
def lagrangeAux (nodes vals : List F) : List Nat → List F
  | [] => []
  | i :: is => polyAdd (polySmul (vals.getD i 0) (lagrangeBasis nodes i)) (lagrangeAux nodes vals is)

/-- Lagrange interpolation of the values at the given nodes.  Values beyond the
index range of the nodes are ignored; missing values default to zero (mirroring the
zero-padding the source's IFFT applies to short evaluation vectors). -/
def lagrange (nodes vals : List F) : List F :=
  lagrangeAux nodes vals (List.range nodes.length)

end PolyLib

/-! ## Data model of the range-check gate layer (`range_check/gate.rs`) -/

/-- One endpoint of a copy constraint: a (row, column) cell position. -/
structure Wire where
  row : Nat
  col : Nat
deriving DecidableEq

/-- A row's wiring: one `Wire` per permutation-tracked column (PERMUTS = 7). -/
abbrev GateWires : Type := Fin 7 → Wire

/-- The gate types appearing in this layer; `Zero` stands for any other circuit
gate type of the enclosing codebase. -/
inductive GateType where
  | RangeCheck0
  | RangeCheck1
  | RangeCheck2
  | Zero
deriving DecidableEq

/-- The `Debug`-format name of a gate type, as used in the source's error strings. -/
def gateTypeName : GateType → String
  | GateType.RangeCheck0 => "RangeCheck0"
  | GateType.RangeCheck1 => "RangeCheck1"
  | GateType.RangeCheck2 => "RangeCheck2"
  | GateType.Zero => "Zero"

/-- One row of the circuit: a gate-type tag, the row's wiring, and fixed coefficients. -/
structure CircuitGate (F : Type) where
  typ : GateType
  wires : GateWires
  coeffs : List F

/-- Modelled from the spec: `Wire::new(row)` (not under src/) initialises a row's
wiring with every cell wired only to itself (a self-loop). -/
def wireSelf (row : Nat) : GateWires := fun c => ⟨row, c.val⟩

/-- Swap the wiring entries of the two given cells of a wiring array
(`connect_cell_pair` in the source; cells are (array index, column) pairs). -/
def connect_cell_pair (wires : Nat → GateWires) (cell1 cell2 : Nat × Fin 7) :
    Nat → GateWires :=
  fun r c =>
    if r = cell1.1 ∧ c = cell1.2 then wires cell2.1 cell2.2
    else if r = cell2.1 ∧ c = cell2.2 then wires cell1.1 cell1.2
    else wires r c

/-- `CircuitGate::create_range_check(start_row)`: allocate four self-looped rows,
link the four cross-row sub-limb cell pairs, and emit the four typed gate rows. -/
def create_range_check (F : Type) (start_row : Nat) : Nat × List (CircuitGate F) :=
  let wires0 : Nat → GateWires := fun i => wireSelf (start_row + i)
  let w1 := connect_cell_pair wires0 (0, 5) (3, 1)
  let w2 := connect_cell_pair w1 (0, 6) (3, 2)
  let w3 := connect_cell_pair w2 (1, 5) (3, 3)
  let w4 := connect_cell_pair w3 (1, 6) (3, 4)
  let circuit_gates : List (CircuitGate F) :=
    [ ⟨GateType.RangeCheck0, w4 0, []⟩,
      ⟨GateType.RangeCheck0, w4 1, []⟩,
      ⟨GateType.RangeCheck1, w4 2, []⟩,
      ⟨GateType.RangeCheck2, w4 3, []⟩ ]
  (start_row + circuit_gates.length, circuit_gates)

/-- A selector polynomial in coefficient form and evaluation-over-d8 form. -/
structure SelectorPolynomial (F : Type) where
  coeff : List F
  eval8 : List F

/-- The evaluation domains of a constraint system: the base domain `d1` and the
8× extended domain `d8`, each given by its list of evaluation points. -/
structure EvaluationDomains (F : Type) where
  d1 : List F
  d8 : List F

/-- The compiled circuit data consumed by `verify_range_check`. -/
structure ConstraintSystem (F : Type) where
  gates : List (CircuitGate F)
  domain : EvaluationDomains F
  range_check_selector_polys : List (SelectorPolynomial F)
  endo : F

/-- `circuit_gate_selector_index`: position of a gate type's selector polynomial;
`none` models the source's `panic!("invalid gate type")`. -/
def circuit_gate_selector_index : GateType → Option Nat
  | GateType.RangeCheck0 => some 0
  | GateType.RangeCheck1 => some 1
  | _ => none

/-- `circuit_gates()`: the range check gate types that have a registered constraint
family (`RangeCheck2` has none and is excluded). -/
def circuit_gates : List GateType := [GateType.RangeCheck0, GateType.RangeCheck1]

/-- `selector_polynomials(gates, domain)`: for each registered gate type, interpolate
the 0/1 indicator sequence of its rows over the base domain and evaluate the result
over the extended domain.  Interpolation is the external polynomial service of the
source, modelled here by `lagrange` over the listed `d1` points. -/
def selector_polynomials {F : Type} [Field F] [DecidableEq F]
    (gates : List (CircuitGate F)) (domain : EvaluationDomains F) :
    List (SelectorPolynomial F) :=
  circuit_gates.map (fun gate_type =>
    let coeff := lagrange domain.d1
      (gates.map (fun gate => if gate.typ = gate_type then (1 : F) else 0))
    let eval8 := domain.d8.map (polyEval coeff)
    ⟨coeff, eval8⟩)

/-! ## The zero-test verifier `verify_range_check` -/

section Verifier

variable {F : Type} [Field F] [DecidableEq F]

/-- `u64::checked_sub`: `none` models the arithmetic underflow that the source
unwraps (a panic). -/
def checked_sub (a b : Nat) : Option Nat := if b ≤ a then some (a - b) else none

/-- The value of witness cell (column, row); out-of-range reads default to the
field zero (the padding value), out-of-range columns to zero. -/
def wcell (w : Fin 15 → List F) (col row : Nat) : F :=
  if h : col < 15 then (w ⟨col, h⟩).getD row 0 else 0

/-- The witness padded with field zeros up to the base-domain size, by the amount
computed by the source from column 0's length. -/
def paddedWitness (w : Fin 15 → List F) (n : Nat) : Fin 15 → List F :=
  fun i => w i ++ List.replicate (n - (w 0).length) 0

/-- Whether every permutation-tracked witness cell agrees with the cell its wire
points to, for every gate row of the constraint system. -/
def copyConstraintsOk (cs : ConstraintSystem F) (w : Fin 15 → List F) : Bool :=
  decide (∀ r, ∀ hr : r < cs.gates.length, ∀ c : Fin 7,
    wcell w c.val r
      = wcell w ((cs.gates.get ⟨r, hr⟩).wires c).col ((cs.gates.get ⟨r, hr⟩).wires c).row)

/-- The verification-time challenges α, β, γ and the lookup joint combiner. -/
structure Challenges (F : Type) where
  alpha : F
  beta : F
  gamma : F
  joint : F

/-- Modelled from the spec: the opaque external collaborators consumed by the
verifier — the seeded field sampler (`StdRng::from_seed` + `F::rand`), the
permutation-aggregation polynomial builder on success (`perm_aggreg`, which is not
under src/), and the evaluation of a gate type's combined, selector-masked
constraint expression over the extended domain (the `Expr` machinery, also not
under src/; it consumes the padded witness, the aggregation polynomial `z`, the
challenges, and the gate type's selector evaluations). -/
structure Services (F : Type) where
  randStream : List Nat → Nat → F
  zOf : (Fin 15 → List F) → F → F → List F
  evalConstraints : GateType → (Fin 15 → List F) → List F → Challenges F → List F → List F

/-- The fixed RNG seed `[0u8; 32]` the source uses for verification-time challenges. -/
def seed0 : List Nat := List.replicate 32 0

/-- Modelled from the spec: the permutation-aggregation service derives `z` from the
witness and the challenges β, γ, and fails (with a permutation error) exactly when
some copy-constraint orbit of the wiring holds unequal witness values. -/
def permAggreg (S : Services F) (cs : ConstraintSystem F) (w : Fin 15 → List F)
    (beta gamma : F) : Except Unit (List F) :=
  if copyConstraintsOk cs w then Except.ok (S.zOf w beta gamma) else Except.error ()

/-- `true` iff every coefficient is the field zero (arkworks `is_zero` on a dense
polynomial). -/
def isZeroPoly (p : List F) : Bool := p.all (fun c => decide (c = 0))

/-- Fold the coefficient at index `i` of the dividend into slot `i mod n` of the
remainder accumulator. -/
def vanishingRemAux (n : Nat) : List F → Nat → List F → List F
  | [], _, acc => acc
  | c :: rest, i, acc =>
    vanishingRemAux n rest (i + 1) (acc.set (i % n) (acc.getD (i % n) 0 + c))

/-- The remainder of a coefficient list under division by the vanishing polynomial
`X^n - 1` of a domain of size `n` (coefficient `i` contributes to slot `i mod n`). -/
def remainderByVanishing (p : List F) (n : Nat) : List F :=
  vanishingRemAux n p 0 (List.replicate n 0)

/-- The challenges drawn (in source order, after the two permutation challenges)
from the RNG seeded with the fixed constant. -/
def rcChallenges (S : Services F) : Challenges F :=
  ⟨S.randStream seed0 2, S.randStream seed0 3, S.randStream seed0 4, S.randStream seed0 5⟩

/-- `CircuitGate::verify_range_check(row, witness, cs)`.

The `amb` argument models the ambient randomness available at the call site; the
source ignores it and seeds its own RNG from the fixed constant `[0u8; 32]`.
The result is `none` when the source panics (the unwrapped `checked_sub` of the
padding length, the `panic!` of `circuit_gate_selector_index` on a non-range-check
type, and an out-of-range selector-polynomial index), and otherwise `some` of the
source's `Result<(), String>`. -/
def verify_range_check (S : Services F) (amb : Nat) (gate : CircuitGate F) (row : Nat)
    (witness : Fin 15 → List F) (cs : ConstraintSystem F) : Option (Except String Unit) :=
  if gate.typ = GateType.RangeCheck2 then some (Except.ok ()) else
  match checked_sub cs.domain.d1.length (witness 0).length with
  | none => none
  | some _padding_length =>
    let w := paddedWitness witness cs.domain.d1.length
    match permAggreg S cs w (S.randStream seed0 0) (S.randStream seed0 1) with
    | Except.error _ =>
      some (Except.error ("Invalid " ++ gateTypeName gate.typ ++ " constraint - permutation failed"))
    | Except.ok z =>
      match circuit_gate_selector_index gate.typ with
      | none => none
      | some idx =>
        match cs.range_check_selector_polys.get? idx with
        | none => none
        | some sel =>
          let evals := S.evalConstraints gate.typ w z (rcChallenges S) sel.eval8
          if isZeroPoly (remainderByVanishing (lagrange cs.domain.d8 evals) cs.domain.d1.length)
          then some (Except.ok ())
          else some (Except.error ("Invalid " ++ gateTypeName gate.typ ++ " constraint"))

/-- The remainder of the zero-test division performed by `verify_range_check`: the
gate type's combined constraint expression evaluated over the extended domain,
interpolated, and divided by the base domain's vanishing polynomial. -/
def rangeCheckZeroTestRemainder (S : Services F) (typ : GateType)
    (witness : Fin 15 → List F) (cs : ConstraintSystem F) : List F :=
  let w := paddedWitness witness cs.domain.d1.length
  let z := S.zOf w (S.randStream seed0 0) (S.randStream seed0 1)
  let sel := cs.range_check_selector_polys.getD ((circuit_gate_selector_index typ).getD 0)
    ⟨[], []⟩
  remainderByVanishing
    (lagrange cs.domain.d8 (S.evalConstraints typ w z (rcChallenges S) sel.eval8))
    cs.domain.d1.length

end Verifier

/-! ## Constraint-expression algebra -/

/-- A symbolic per-row constraint expression (immutable tree of sums, products,
literals, and current/next-row cell references). -/
inductive E (F : Type) where
  | lit (c : F)
  | cell (col : Nat) (next : Bool)
  | add (a b : E F)
  | mul (a b : E F)
deriving DecidableEq

/-- The challenge-power allocator: each constraint family registers the number of
powers of α it needs, receiving a disjoint range. -/
structure Alphas (F : Type) where
  registered : List (GateType × Nat)

/-- `circuit_gate_constraints(typ, alphas)`: dispatch to the gate type's combined
constraint expression (`RangeCheck0`/`RangeCheck1` only — their expression builders
live outside src/ and are taken as arguments); `none` models the source's
`panic!("invalid gate type")`. -/
def circuit_gate_constraints {F : Type} (rc0 rc1 : Alphas F → E F) :
    GateType → Alphas F → Option (E F)
  | GateType.RangeCheck0, alphas => some (rc0 alphas)
  | GateType.RangeCheck1, alphas => some (rc1 alphas)
  | _, _ => none

/-- `combined_constraints(alphas)`: the sum of the combined constraint expressions
of all range check circuit gate types. -/
def combined_constraints {F : Type} (rc0 rc1 : Alphas F → E F) (alphas : Alphas F) : E F :=
  E.add (rc0 alphas) (rc1 alphas)

/-! ## Generalized dynamic-selector engine (o1vm pickles) -/

/-- A column of the generalized engine's witness: a relation (scratch /
instruction-counter / error) column or a per-instruction dynamic selector column. -/
inductive Column where
  | Relation (i : Nat)
  | DynamicSelector (i : Nat)
deriving DecidableEq

/-- Whether a cell reference targets the current or the next row. -/
inductive CurrOrNext where
  | Curr
  | Next
deriving DecidableEq

/-- A constraint expression of the generalized engine. -/
inductive VMExpr (F : Type) where
  | lit (c : F)
  | cell (col : Column) (r : CurrOrNext)
  | add (a b : VMExpr F)
  | mul (a b : VMExpr F)
deriving DecidableEq

/-- Evaluate an engine expression on a witness (a value per column and row) at a row. -/
def evalVMExpr {F : Type} [Field F] (w : Column → Nat → F) (row : Nat) : VMExpr F → F
  | VMExpr.lit c => c
  | VMExpr.cell col CurrOrNext.Curr => w col row
  | VMExpr.cell col CurrOrNext.Next => w col (row + 1)
  | VMExpr.add a b => evalVMExpr w row a + evalVMExpr w row b
  | VMExpr.mul a b => evalVMExpr w row a * evalVMExpr w row b

/-- Modelled from the spec: the engine's `prove`/`verify` pair (not under src/)
realizes the zero test over the accumulated constraint list — a witness is accepted
iff every constraint in the list evaluates to the field zero at every row of the
domain (the commitment/opening layer is an external service and is omitted). -/
def vmVerify {F : Type} [Field F] [DecidableEq F] (domainSize : Nat)
    (constraints : List (VMExpr F)) (w : Column → Nat → F) : Bool :=
  decide (∀ e ∈ constraints, ∀ r, r < domainSize → evalVMExpr w r e = 0)

/-- The sum of the dynamic selector cells of one row, as an expression. -/
def selectorSumExpr (F : Type) [Field F] (nSel : Nat) : VMExpr F :=
  (List.range nSel).foldr
    (fun j acc => VMExpr.add (VMExpr.cell (Column.DynamicSelector j) CurrOrNext.Curr) acc)
    (VMExpr.lit 0)

/-- The one-hot sum-to-one selector constraint: the selectors of a row sum to 1. -/
def sumToOneConstraint (F : Type) [Field F] (nSel : Nat) : VMExpr F :=
  VMExpr.add (selectorSumExpr F nSel) (VMExpr.lit (-1))

/-- The booleanity constraint of one dynamic selector column. -/
def selectorBoolConstraint (F : Type) [Field F] (j : Nat) : VMExpr F :=
  VMExpr.mul (VMExpr.cell (Column.DynamicSelector j) CurrOrNext.Curr)
    (VMExpr.add (VMExpr.cell (Column.DynamicSelector j) CurrOrNext.Curr) (VMExpr.lit (-1)))

/-- The wiring of gadget-local row `i`, column `c` after `create_range_check`:
the four cross-row cell pairs (0,5)↔(3,1), (0,6)↔(3,2), (1,5)↔(3,3), (1,6)↔(3,4)
point at each other; every other cell is self-looped. -/
def expectedWire (start_row i c : Nat) : Wire :=
  if i = 0 ∧ c = 5 then ⟨start_row + 3, 1⟩
  else if i = 0 ∧ c = 6 then ⟨start_row + 3, 2⟩
  else if i = 1 ∧ c = 5 then ⟨start_row + 3, 3⟩
  else if i = 1 ∧ c = 6 then ⟨start_row + 3, 4⟩
  else if i = 3 ∧ c = 1 then ⟨start_row + 0, 5⟩
  else if i = 3 ∧ c = 2 then ⟨start_row + 0, 6⟩
  else if i = 3 ∧ c = 3 then ⟨start_row + 1, 5⟩
  else if i = 3 ∧ c = 4 then ⟨start_row + 1, 6⟩
  else ⟨start_row + i, c⟩

/-! ## Witness-cell helper definitions -/

/-- The witness column (of the 15) corresponding to a permutation-tracked column. -/
def colOf (c : Fin 7) : Fin 15 := ⟨c.val, by omega⟩

/-- Increment one witness cell by one field unit (the corruption of the source's
`witness[col][row] += F::one()` tests). -/
def bumpCell {F : Type} [Field F] (w : Fin 15 → List F) (col : Fin 15) (row : Nat) :
    Fin 15 → List F :=
  fun i => if i = col then (w col).set row ((w col).getD row 0 + 1) else w i

/-- The concrete field for witnesses and counterexamples: arithmetic in `ZMod 11`
reduces definitionally, so concrete runs can be checked by `decide`. -/
abbrev F11 : Type := ZMod 11

instance : Fact (Nat.Prime 11) := ⟨by norm_num⟩

/-- The single instruction constraint of the small-circuit scenario: the sum of the
five relation cells of a row, masked by the first dynamic selector. -/
def smallCircuitConstraint : VMExpr F11 :=
  VMExpr.mul
    ((List.range 5).foldr
      (fun i acc => VMExpr.add (VMExpr.cell (Column.Relation i) CurrOrNext.Curr) acc)
      (VMExpr.lit 0))
    (VMExpr.cell (Column.DynamicSelector 0) CurrOrNext.Curr)

/-- The small-circuit witness: three scratch columns and the instruction counter hold
one, the error column holds minus four, and every dynamic selector column is zero on
every row — a one-hot violation (no selector active) at each row. -/
def smallCircuitWitness : Column → Nat → F11 :=
  fun col _row =>
    match col with
    | Column.Relation i => if i ≤ 3 then 1 else if i = 4 then -4 else 0
    | Column.DynamicSelector _ => 0

/-! ## Concrete instances for witnesses and counterexamples -/

/-- Trivial instantiation of the external services: all samples zero, empty
aggregation polynomial, identically-zero constraint evaluations. -/
def trivialServices : Services F11 :=
  ⟨fun _ _ => 0, fun _ _ _ => [], fun _ _ _ _ _ => []⟩

/-- The four range check gadget rows starting at row 0. -/
def rcGates : List (CircuitGate F11) := (create_range_check F11 0).2

/-- A constraint system over the gadget with a base domain of four points. -/
def csW : ConstraintSystem F11 := ⟨rcGates, ⟨[0, 1, 2, 3], []⟩, [⟨[], []⟩, ⟨[], []⟩], 0⟩

/-- A constraint system over the gadget with a one-point base domain. -/
def csOne : ConstraintSystem F11 := ⟨rcGates, ⟨[0], []⟩, [⟨[], []⟩, ⟨[], []⟩], 0⟩

/-- An all-zero witness of four rows in every column. -/
def wFour : Fin 15 → List F11 := fun _ => [0, 0, 0, 0]

/-- A witness whose column 0 is empty but whose column 1 has two rows. -/
def wMixed : Fin 15 → List F11 := fun i => if i = 1 then [0, 0] else []

/-- A witness with two rows in every column. -/
def wLong : Fin 15 → List F11 := fun _ => [0, 0]

/-- `wFour` with the permutation-linked cell (row 0, column 5) incremented by one. -/
def wBad : Fin 15 → List F11 := bumpCell wFour (colOf 5) 0

def gateRC0 : CircuitGate F11 := ⟨GateType.RangeCheck0, wireSelf 0, []⟩

def gateRC2 : CircuitGate F11 := ⟨GateType.RangeCheck2, wireSelf 3, []⟩

instance {e a : Type} [DecidableEq e] [DecidableEq a] : DecidableEq (Except e a) :=
  fun x y =>
  match x, y with
  | Except.ok u, Except.ok v =>
    if h : u = v then isTrue (by rw [h]) else isFalse (fun hh => h (Except.ok.inj hh))
  | Except.error u, Except.error v =>
    if h : u = v then isTrue (by rw [h]) else isFalse (fun hh => h (Except.error.inj hh))
  | Except.ok _, Except.error _ => isFalse (fun hh => Except.noConfusion hh)
  | Except.error _, Except.ok _ => isFalse (fun hh => Except.noConfusion hh)

/-! ## Proofs about the polynomial library -/

section PolyProofs

variable {F : Type} [Field F] [DecidableEq F]

theorem polyEval_nil (x : F) : polyEval ([] : List F) x = 0 := rfl

theorem polyEval_cons (c : F) (p : List F) (x : F) :
    polyEval (c :: p) x = c + x * polyEval p x := rfl

theorem polyEval_polyAdd (p q : List F) (x : F) :
    polyEval (polyAdd p q) x = polyEval p x + polyEval q x := by
  induction p generalizing q with
  | nil => simp [polyAdd, polyEval_nil]
  | cons a p ih =>
    cases q with
    | nil => simp [polyAdd, polyEval_nil]
    | cons b q =>
      simp only [polyAdd, polyEval_cons, ih]
      ring

theorem polyEval_polySmul (c : F) (p : List F) (x : F) :
    polyEval (polySmul c p) x = c * polyEval p x := by
  induction p with
  | nil => simp [polySmul, polyEval_nil]
  | cons a p ih =>
    simp only [polySmul, List.map_cons, polyEval_cons] at *
    rw [ih]
    ring

theorem polyEval_polyMul (p q : List F) (x : F) :
    polyEval (polyMul p q) x = polyEval p x * polyEval q x := by
  induction p with
  | nil => simp [polyMul, polyEval_nil]
  | cons a p ih =>
    simp only [polyMul, polyEval_polyAdd, polyEval_polySmul, polyEval_cons, ih]
    ring

theorem polyEval_prodLin (l : List F) (x : F) :
    polyEval (prodLin l) x = (l.map (fun a => x - a)).prod := by
  induction l with
  | nil =>
    simp [prodLin, polyEval_cons, polyEval_nil]
  | cons a l ih =>
    simp only [prodLin, List.foldr_cons, List.map_cons, List.prod_cons] at *
    rw [polyEval_polyMul, ih]
    simp only [polyEval_cons, polyEval_nil]
    ring

theorem polyEval_lagrangeAux (nodes vals : List F) (idxs : List Nat) (x : F) :
    polyEval (lagrangeAux nodes vals idxs) x
      = (idxs.map (fun i => vals.getD i 0 * polyEval (lagrangeBasis nodes i) x)).sum := by
  induction idxs with
  | nil => simp [lagrangeAux, polyEval_nil]
  | cons i is ih =>
    simp only [lagrangeAux, polyEval_polyAdd, polyEval_polySmul, List.map_cons, List.sum_cons, ih]

theorem getD_eq_get' (l : List F) (i : Nat) (d : F) (h : i < l.length) :
    l.getD i d = l.get ⟨i, h⟩ := by
  induction l generalizing i with
  | nil => simp at h
  | cons a t ih =>
    cases i with
    | zero => rfl
    | succ i => exact ih i (Nat.succ_lt_succ_iff.mp h)

theorem get_mem_dropIdx (l : List F) (i k : Nat) (hk : k < l.length) (hik : i ≠ k) :
    l.get ⟨k, hk⟩ ∈ dropIdx l i := by
  induction l generalizing i k with
  | nil => simp at hk
  | cons a t ih =>
    cases i with
    | zero =>
      cases k with
      | zero => exact absurd rfl hik
      | succ k =>
        simp only [dropIdx, List.get_cons_succ]
        exact List.get_mem _ _ _
    | succ i =>
      cases k with
      | zero =>
        simp [dropIdx]
      | succ k =>
        simp only [dropIdx, List.get_cons_succ, List.mem_cons]
        exact Or.inr (ih i k (Nat.succ_lt_succ_iff.mp hk) (fun h => hik (by rw [h])))

theorem ne_get_of_mem_dropIdx (l : List F) (hp : l.Pairwise (fun a b => a ≠ b)) (k : Nat)
    (hk : k < l.length) (a : F) (ha : a ∈ dropIdx l k) : a ≠ l.get ⟨k, hk⟩ := by
  induction l generalizing k with
  | nil => simp [dropIdx] at ha
  | cons x t ih =>
    rcases List.pairwise_cons.mp hp with ⟨hx, ht⟩
    cases k with
    | zero =>
      simp only [dropIdx] at ha
      simp only [List.get]
      exact fun h => (hx a ha) h.symm
    | succ k =>
      simp only [dropIdx, List.mem_cons] at ha
      simp only [List.get_cons_succ]
      rcases ha with rfl | ha
      · exact fun h => (hx _ (List.get_mem t _ _)) h
      · exact ih ht k (Nat.succ_lt_succ_iff.mp hk) ha

theorem polyEval_lagrangeBasis (nodes : List F) (i : Nat) (x : F) :
    polyEval (lagrangeBasis nodes i) x
      = ((nodeDiffs nodes i).prod)⁻¹ * ((dropIdx nodes i).map (fun a => x - a)).prod := by
  rw [lagrangeBasis, polyEval_polySmul, polyEval_prodLin]

theorem polyEval_lagrangeBasis_ne (nodes : List F) (i k : Nat) (hk : k < nodes.length)
    (hik : i ≠ k) : polyEval (lagrangeBasis nodes i) (nodes.get ⟨k, hk⟩) = 0 := by
  rw [polyEval_lagrangeBasis]
  have hmem : nodes.get ⟨k, hk⟩ ∈ dropIdx nodes i := get_mem_dropIdx nodes i k hk hik
  have hz : (0 : F) ∈ (dropIdx nodes i).map (fun a => nodes.get ⟨k, hk⟩ - a) :=
    List.mem_map.mpr ⟨_, hmem, sub_self _⟩
  rw [List.prod_eq_zero hz, mul_zero]

theorem polyEval_lagrangeBasis_self (nodes : List F) (hnd : nodes.Pairwise (fun a b => a ≠ b))
    (k : Nat) (hk : k < nodes.length) :
    polyEval (lagrangeBasis nodes k) (nodes.get ⟨k, hk⟩) = 1 := by
  rw [polyEval_lagrangeBasis]
  have hgd : nodes.getD k 0 = nodes.get ⟨k, hk⟩ := getD_eq_get' nodes k 0 hk
  have hne : (0 : F) ∉ (dropIdx nodes k).map (fun a => nodes.get ⟨k, hk⟩ - a) := by
    intro hy
    rcases List.mem_map.mp hy with ⟨a, ha, hz⟩
    exact sub_ne_zero.mpr (Ne.symm (ne_get_of_mem_dropIdx nodes hnd k hk a ha)) hz
  rw [nodeDiffs, hgd]
  exact inv_mul_cancel₀ (List.prod_ne_zero hne)

theorem sum_map_range_eq_single (n k : Nat) (f : Nat → F) (hk : k < n)
    (h0 : ∀ i, i < n → i ≠ k → f i = 0) :
    ((List.range n).map f).sum = f k := by
  induction n with
  | zero => omega
  | succ n ih =>
    rw [List.range_succ, List.map_append, List.sum_append]
    by_cases hkn : k = n
    · subst hkn
      have hz : ((List.range k).map f).sum = 0 := by
        apply List.sum_eq_zero
        intro x hx
        rcases List.mem_map.mp hx with ⟨i, hi, rfl⟩
        have hik : i < k := List.mem_range.mp hi
        exact h0 i (by omega) (by omega)
      simp [hz]
    · have hk' : k < n := by omega
      rw [ih hk' (fun i hi hik => h0 i (by omega) hik)]
      have hz : f n = 0 := h0 n (by omega) (by omega)
      simp [hz]

/-- Evaluating the Lagrange interpolation of a value list at the `k`-th node reproduces
the `k`-th value (with pairwise-distinct nodes; missing values default to zero). -/
theorem polyEval_lagrange_node (nodes vals : List F)
    (hnd : nodes.Pairwise (fun a b => a ≠ b)) (k : Nat) (hk : k < nodes.length) :
    polyEval (lagrange nodes vals) (nodes.get ⟨k, hk⟩) = vals.getD k 0 := by
  rw [lagrange, polyEval_lagrangeAux]
  rw [sum_map_range_eq_single nodes.length k _ hk ?h0]
  · rw [polyEval_lagrangeBasis_self nodes hnd k hk, mul_one]
  case h0 =>
    intro i hi hik
    rw [polyEval_lagrangeBasis_ne nodes i k hk hik, mul_zero]

end PolyProofs

/-! ## Correctness of the vanishing-polynomial remainder

`remainderByVanishing p n` folds coefficient `i` into slot `i mod n`; the lemmas
below show it has length `n` and agrees with `p` at every `n`-th root of unity,
which characterises the remainder of `p` under division by `X^n - 1`. -/

section VanishingRemainder

variable {F : Type} [Field F] [DecidableEq F]

theorem pow_mod_eq_pow (x : F) (n : Nat) (hx : x ^ n = 1) (i : Nat) :
    x ^ (i % n) = x ^ i := by
  conv_rhs => rw [← Nat.div_add_mod i n]
  rw [pow_add, pow_mul, hx, one_pow, one_mul]

theorem polyEval_set_add (l : List F) (j : Nat) (c : F) (x : F) (hj : j < l.length) :
    polyEval (l.set j (l.getD j 0 + c)) x = polyEval l x + c * x ^ j := by
  induction l generalizing j with
  | nil => simp at hj
  | cons a t ih =>
    cases j with
    | zero =>
      simp only [List.set, List.getD, polyEval_cons]
      simp [List.getD]
      ring
    | succ j =>
      simp only [List.set, polyEval_cons, List.getD_cons_succ]
      rw [ih j (Nat.succ_lt_succ_iff.mp hj)]
      ring

theorem polyEval_replicate_zero (n : Nat) (x : F) :
    polyEval (List.replicate n (0 : F)) x = 0 := by
  induction n with
  | zero => rfl
  | succ n ih => simp [List.replicate, polyEval_cons, ih]

theorem length_vanishingRemAux (n : Nat) (p : List F) (i : Nat) (acc : List F) :
    (vanishingRemAux n p i acc).length = acc.length := by
  induction p generalizing i acc with
  | nil => rfl
  | cons c rest ih => simp [vanishingRemAux, ih, List.length_set]

theorem length_remainderByVanishing (p : List F) (n : Nat) :
    (remainderByVanishing p n).length = n := by
  unfold remainderByVanishing
  rw [length_vanishingRemAux, List.length_replicate]

theorem polyEval_vanishingRemAux (n : Nat) (hn : 0 < n) (x : F) (hx : x ^ n = 1)
    (p : List F) : ∀ (i : Nat) (acc : List F), acc.length = n →
    polyEval (vanishingRemAux n p i acc) x = polyEval acc x + x ^ i * polyEval p x := by
  induction p with
  | nil =>
    intro i acc hacc
    simp [vanishingRemAux, polyEval_nil]
  | cons c rest ih =>
    intro i acc hacc
    have hlt : i % n < acc.length := by
      rw [hacc]
      exact Nat.mod_lt i hn
    have hset : (acc.set (i % n) (acc.getD (i % n) 0 + c)).length = n := by
      rw [List.length_set, hacc]
    rw [vanishingRemAux, ih (i + 1) _ hset, polyEval_set_add acc (i % n) c x hlt,
      pow_mod_eq_pow x n hx i, polyEval_cons]
    ring

/-- `remainderByVanishing p n` agrees with `p` at every `n`-th root of unity: together
with `length_remainderByVanishing` this characterises it as the remainder of `p`
under division by the vanishing polynomial `X^n - 1`. -/
theorem polyEval_remainderByVanishing (p : List F) (n : Nat) (hn : 0 < n) (x : F)
    (hx : x ^ n = 1) : polyEval (remainderByVanishing p n) x = polyEval p x := by
  unfold remainderByVanishing
  rw [polyEval_vanishingRemAux n hn x hx p 0 _ (List.length_replicate n 0),
    polyEval_replicate_zero, pow_zero, one_mul, zero_add]

end VanishingRemainder

/-! ## List access helper lemmas -/

section ListHelpers

variable {F : Type} [Field F] [DecidableEq F]

theorem getD_set_self (l : List F) (i : Nat) (v : F) (h : i < l.length) :
    (l.set i v).getD i 0 = v := by
  rw [List.getD_eq_getElem _ _ (by simpa using h)]
  simp [List.getElem_set]

theorem getD_set_ne (l : List F) (i j : Nat) (v : F) (hne : j ≠ i) :
    (l.set i v).getD j 0 = l.getD j 0 := by
  rw [List.getD_eq_getElem?_getD, List.getD_eq_getElem?_getD, List.getElem?_set]
  simp [Ne.symm hne]

theorem getD_replicate_zero (k m : Nat) : (List.replicate k (0 : F)).getD m 0 = 0 := by
  by_cases h : m < k
  · rw [List.getD_eq_getElem _ _ (by simpa using h)]
    simp
  · rw [List.getD_eq_default _ _ (by simpa using Nat.le_of_not_lt h)]

theorem getD_append_replicate_zero (l : List F) (k row : Nat) :
    (l ++ List.replicate k (0 : F)).getD row 0 = l.getD row 0 := by
  by_cases h : row < l.length
  · exact List.getD_append _ _ _ _ h
  · rw [List.getD_append_right _ _ _ _ (Nat.le_of_not_lt h),
      List.getD_eq_default _ _ (Nat.le_of_not_lt h), getD_replicate_zero]

end ListHelpers

theorem evalVMExpr_selectorFold {F : Type} [Field F] (w : Column → Nat → F)
    (row : Nat) (js : List Nat) :
    evalVMExpr w row
      (js.foldr
        (fun j acc => VMExpr.add (VMExpr.cell (Column.DynamicSelector j) CurrOrNext.Curr) acc)
        (VMExpr.lit 0))
      = (js.map (fun j => w (Column.DynamicSelector j) row)).sum := by
  induction js with
  | nil => simp [evalVMExpr]
  | cons j js ih => simp [evalVMExpr, ih]

theorem evalVMExpr_selectorSumExpr {F : Type} [Field F] (w : Column → Nat → F)
    (row : Nat) (nSel : Nat) :
    evalVMExpr w row (selectorSumExpr F nSel)
      = ((List.range nSel).map (fun j => w (Column.DynamicSelector j) row)).sum := by
  unfold selectorSumExpr
  exact evalVMExpr_selectorFold w row (List.range nSel)

section WcellLemmas

variable {F : Type} [Field F] [DecidableEq F]

theorem length_bumpCell (w : Fin 15 → List F) (col : Fin 15) (row : Nat) (i : Fin 15) :
    (bumpCell w col row i).length = (w i).length := by
  unfold bumpCell
  by_cases h : i = col
  · rw [if_pos h, List.length_set, h]
  · rw [if_neg h]

theorem wcell_paddedWitness (w : Fin 15 → List F) (n col row : Nat) :
    wcell (paddedWitness w n) col row = wcell w col row := by
  unfold wcell paddedWitness
  by_cases h : col < 15
  · rw [dif_pos h, dif_pos h]
    exact getD_append_replicate_zero _ _ _
  · rw [dif_neg h, dif_neg h]

theorem copyConstraintsOk_paddedWitness (cs : ConstraintSystem F) (w : Fin 15 → List F)
    (n : Nat) : copyConstraintsOk cs (paddedWitness w n) = copyConstraintsOk cs w := by
  unfold copyConstraintsOk
  apply decide_eq_decide.mpr
  constructor <;> intro hh r hr c <;> have hx := hh r hr c <;>
    simpa [wcell_paddedWitness] using hx

theorem wcell_bumpCell_self (w : Fin 15 → List F) (col : Fin 15) (row : Nat)
    (hrow : row < (w col).length) :
    wcell (bumpCell w col row) col.val row = wcell w col.val row + 1 := by
  unfold wcell bumpCell
  rw [dif_pos col.isLt, dif_pos col.isLt]
  rw [if_pos rfl]
  exact getD_set_self _ _ _ hrow

theorem wcell_bumpCell_other (w : Fin 15 → List F) (col : Fin 15) (row : Nat)
    (col' row' : Nat) (hne : ¬(col' = col.val ∧ row' = row)) :
    wcell (bumpCell w col row) col' row' = wcell w col' row' := by
  unfold wcell bumpCell
  by_cases h : col' < 15
  · rw [dif_pos h, dif_pos h]
    by_cases hc : (⟨col', h⟩ : Fin 15) = col
    · rw [if_pos hc]
      have hcv : col' = col.val := by rw [← hc]
      have hr : row' ≠ row := fun hr => hne ⟨hcv, hr⟩
      rw [getD_set_ne _ _ _ _ hr, hc]
    · rw [if_neg hc]
  · rw [dif_neg h, dif_neg h]

end WcellLemmas

/-! ## Claim theorems: wiring and gate-row composition -/

/-- C8: for a wiring array with two currently self-looped cells, `connect_cell_pair`
swaps their wiring entries — afterwards cellA's wire holds cellB's (row, column)
and cellB's wire holds cellA's (row, column), a 2-cycle — and no other cell's
wiring entry changes. -/
theorem connect_cell_pair_spec (wires : Nat → GateWires) (cell1 cell2 : Nat × Fin 7)
    (h1 : wires cell1.1 cell1.2 = ⟨cell1.1, cell1.2.val⟩)
    (h2 : wires cell2.1 cell2.2 = ⟨cell2.1, cell2.2.val⟩) :
    connect_cell_pair wires cell1 cell2 cell1.1 cell1.2 = ⟨cell2.1, cell2.2.val⟩
    ∧ connect_cell_pair wires cell1 cell2 cell2.1 cell2.2 = ⟨cell1.1, cell1.2.val⟩
    ∧ ∀ (r : Nat) (c : Fin 7), (r, c) ≠ cell1 → (r, c) ≠ cell2 →
        connect_cell_pair wires cell1 cell2 r c = wires r c := by
  refine ⟨?_, ?_, ?_⟩
  · simp [connect_cell_pair, h2]
  · by_cases h : cell2.1 = cell1.1 ∧ cell2.2 = cell1.2
    · obtain ⟨ha, hb⟩ := h
      simp only [connect_cell_pair]
      rw [if_pos ⟨ha, hb⟩, h2, ha, hb]
    · simp [connect_cell_pair, h, h1]
  · intro r c hc1 hc2
    have n1 : ¬(r = cell1.1 ∧ c = cell1.2) := fun h => hc1 (Prod.ext h.1 h.2)
    have n2 : ¬(r = cell2.1 ∧ c = cell2.2) := fun h => hc2 (Prod.ext h.1 h.2)
    simp [connect_cell_pair, n1, n2]

theorem connect_cell_pair_spec_witness :
    connect_cell_pair (fun r => wireSelf r) (0, 5) (3, 1) 0 5 = ⟨3, 1⟩ :=
  (connect_cell_pair_spec (fun r => wireSelf r) (0, 5) (3, 1) rfl rfl).1

/-- C4: `create_range_check(start_row)` returns `(start_row + 4, gates)` where the
four gates are tagged, in order, RangeCheck0, RangeCheck0, RangeCheck1, RangeCheck2,
each with an empty coefficient vector, and the wiring links exactly the four
cross-row sub-limb cell pairs, all other cells remaining self-looped. -/
theorem create_range_check_spec (F : Type) (start_row : Nat) :
    (create_range_check F start_row).1 = start_row + 4
    ∧ ((create_range_check F start_row).2.map (fun g => g.typ))
        = [GateType.RangeCheck0, GateType.RangeCheck0, GateType.RangeCheck1,
           GateType.RangeCheck2]
    ∧ (∀ g ∈ (create_range_check F start_row).2, g.coeffs = [])
    ∧ ∀ (i : Fin 4) (c : Fin 7) (h : i.val < (create_range_check F start_row).2.length),
        ((create_range_check F start_row).2.get ⟨i.val, h⟩).wires c
          = expectedWire start_row i.val c.val := by
  refine ⟨rfl, rfl, ?_, ?_⟩
  · intro g hg
    simp only [create_range_check, List.mem_cons, List.not_mem_nil, or_false] at hg
    rcases hg with rfl | rfl | rfl | rfl <;> rfl
  · intro i c h
    fin_cases i <;> fin_cases c <;> rfl

theorem create_range_check_spec_witness :
    (create_range_check ℚ 0).1 = 0 + 4
    ∧ ((create_range_check ℚ 0).2.get ⟨0, by decide⟩).wires 5 = expectedWire 0 0 5 := by
  refine ⟨(create_range_check_spec ℚ 0).1, ?_⟩
  exact (create_range_check_spec ℚ 0).2.2.2 0 5 (by decide)

/-! ## Claim theorems: constraint-expression algebra -/

/-- C7: for every `Alphas` allocation, `combined_constraints(alphas)` is the sum of
`circuit_gate_constraints(typ, alphas)` over the known range check gate types, i.e.
the RangeCheck0 expression plus the RangeCheck1 expression. -/
theorem combined_constraints_spec {F : Type} (rc0 rc1 : Alphas F → E F)
    (alphas : Alphas F) (e0 e1 : E F)
    (h0 : circuit_gate_constraints rc0 rc1 GateType.RangeCheck0 alphas = some e0)
    (h1 : circuit_gate_constraints rc0 rc1 GateType.RangeCheck1 alphas = some e1) :
    combined_constraints rc0 rc1 alphas = E.add e0 e1 := by
  simp only [circuit_gate_constraints, Option.some.injEq] at h0 h1
  rw [combined_constraints, h0, h1]

theorem combined_constraints_spec_witness :
    combined_constraints (fun _ => E.lit (0 : ℚ)) (fun _ => E.lit 1) ⟨[]⟩
      = E.add (E.lit 0) (E.lit 1) :=
  combined_constraints_spec (fun _ => E.lit (0 : ℚ)) (fun _ => E.lit 1) ⟨[]⟩
    (E.lit 0) (E.lit 1) rfl rfl

/-! ## Claim theorems: the zero-test verifier -/

/-- C10: `verify_range_check` is deterministic — the challenges are drawn from an
RNG seeded inside the function with the fixed constant `[0u8; 32]` (`seed0`), so
the result does not depend on the ambient randomness of the call site: two calls
with identical gate, witness, and constraint-system arguments agree. -/
theorem verify_range_check_deterministic {F : Type} [Field F] [DecidableEq F]
    (S : Services F) (amb1 amb2 : Nat) (gate : CircuitGate F) (row : Nat)
    (witness : Fin 15 → List F) (cs : ConstraintSystem F) :
    verify_range_check S amb1 gate row witness cs
      = verify_range_check S amb2 gate row witness cs := rfl

/-- C3 (amended): a gate of type RangeCheck2 — the type with no implemented
constraint family — verifies with plain success `Ok(())` for every witness, every
constraint system, and every instantiation of the external services, without any
constraint being evaluated (the result does not depend on the constraint-evaluation
service, which is universally quantified here). -/
theorem verify_range_check_rangecheck2_passes {F : Type} [Field F] [DecidableEq F]
    (S : Services F) (amb : Nat) (wires : GateWires) (coeffs : List F) (row : Nat)
    (witness : Fin 15 → List F) (cs : ConstraintSystem F) :
    verify_range_check S amb ⟨GateType.RangeCheck2, wires, coeffs⟩ row witness cs
      = some (Except.ok ()) := rfl

/-! ## C2: permutation failure surfaces before the gate-local zero test -/

/-- C2: incrementing a permutation-linked witness cell by one unit, without updating
the cell its wire points to, makes `verify_range_check` return the permutation
failure error tagged with the gate type — a string distinct from the
constraint-violation error — because the permutation-aggregation step fails and is
surfaced before the gate-local zero test runs. -/
theorem verify_range_check_perm_failure {F : Type} [Field F] [DecidableEq F]
    (S : Services F) (amb : Nat) (gate : CircuitGate F) (row : Nat)
    (w : Fin 15 → List F) (cs : ConstraintSystem F)
    (htyp : gate.typ = GateType.RangeCheck0 ∨ gate.typ = GateType.RangeCheck1)
    (r : Nat) (hr : r < cs.gates.length) (c : Fin 7)
    (hlink : ¬(((cs.gates.get ⟨r, hr⟩).wires c).col = c.val
        ∧ ((cs.gates.get ⟨r, hr⟩).wires c).row = r))
    (hrow : r < (w (colOf c)).length)
    (heq : wcell w c.val r
      = wcell w ((cs.gates.get ⟨r, hr⟩).wires c).col ((cs.gates.get ⟨r, hr⟩).wires c).row)
    (hfit : (w 0).length ≤ cs.domain.d1.length) :
    verify_range_check S amb gate row (bumpCell w (colOf c) r) cs
      = some (Except.error
          ("Invalid " ++ gateTypeName gate.typ ++ " constraint - permutation failed"))
    ∧ ("Invalid " ++ gateTypeName gate.typ ++ " constraint - permutation failed")
        ≠ ("Invalid " ++ gateTypeName gate.typ ++ " constraint") := by
  have htyp2 : gate.typ ≠ GateType.RangeCheck2 := by
    rcases htyp with h | h <;> rw [h] <;> decide
  have hcopy : copyConstraintsOk cs (bumpCell w (colOf c) r) = false := by
    apply decide_eq_false
    intro hall
    have hck := hall r hr c
    have hce : (c.val : Nat) = (colOf c).val := rfl
    rw [hce] at hck
    rw [wcell_bumpCell_self w (colOf c) r hrow] at hck
    rw [wcell_bumpCell_other w (colOf c) r _ _ hlink] at hck
    rw [← heq] at hck
    have hck2 : wcell w (colOf c).val r + 1 = wcell w (colOf c).val r := hck
    have h10 : (1 : F) = 0 := by
      have hx : wcell w (colOf c).val r + 1 = wcell w (colOf c).val r + 0 := by
        rw [add_zero]
        exact hck2
      exact add_left_cancel hx
    exact one_ne_zero h10
  refine ⟨?_, ?_⟩
  · have hlen : (bumpCell w (colOf c) r 0).length = (w 0).length :=
      length_bumpCell w (colOf c) r 0
    have hsub : checked_sub cs.domain.d1.length (bumpCell w (colOf c) r 0).length
        = some (cs.domain.d1.length - (bumpCell w (colOf c) r 0).length) := by
      unfold checked_sub
      rw [if_pos (by omega)]
    have hperm : copyConstraintsOk cs
        (paddedWitness (bumpCell w (colOf c) r) cs.domain.d1.length) = false := by
      rw [copyConstraintsOk_paddedWitness]
      exact hcopy
    unfold verify_range_check permAggreg
    rw [if_neg htyp2, hsub]
    simp only [hperm, Bool.false_eq_true, if_false]
  · rcases htyp with h | h <;> rw [h] <;> decide

/-! ## C1: success iff the zero-test division has zero remainder -/

/-- C1 (amended): for a gate of type RangeCheck0 or RangeCheck1 and a witness whose
columns fit in the base domain, provided the permutation-aggregation step succeeds on
the padded witness, `verify_range_check` returns `Ok(())` iff the polynomial obtained
by evaluating the gate type's combined constraint expression over the extended domain
and interpolating has zero remainder under division by the base domain's vanishing
polynomial; any non-zero remainder yields the error string identifying the gate type. -/
theorem verify_range_check_ok_iff_zero_remainder {F : Type} [Field F] [DecidableEq F]
    (S : Services F) (amb : Nat) (gate : CircuitGate F) (row : Nat)
    (w : Fin 15 → List F) (cs : ConstraintSystem F)
    (htyp : gate.typ = GateType.RangeCheck0 ∨ gate.typ = GateType.RangeCheck1)
    (hfit : ∀ i : Fin 15, (w i).length ≤ cs.domain.d1.length)
    (hperm : copyConstraintsOk cs (paddedWitness w cs.domain.d1.length) = true)
    (hsel : 2 ≤ cs.range_check_selector_polys.length) :
    (verify_range_check S amb gate row w cs = some (Except.ok ())
      ↔ isZeroPoly (rangeCheckZeroTestRemainder S gate.typ w cs) = true)
    ∧ (isZeroPoly (rangeCheckZeroTestRemainder S gate.typ w cs) = false →
        verify_range_check S amb gate row w cs
          = some (Except.error ("Invalid " ++ gateTypeName gate.typ ++ " constraint"))) := by
  have htyp2 : gate.typ ≠ GateType.RangeCheck2 := by
    rcases htyp with h | h <;> rw [h] <;> decide
  have hsub : checked_sub cs.domain.d1.length (w 0).length
      = some (cs.domain.d1.length - (w 0).length) := by
    unfold checked_sub
    rw [if_pos (hfit 0)]
  obtain ⟨idx, hidx, hidx2⟩ : ∃ idx, circuit_gate_selector_index gate.typ = some idx
      ∧ idx < cs.range_check_selector_polys.length := by
    rcases htyp with h | h <;> rw [h] <;> exact ⟨_, rfl, by omega⟩
  have hget : cs.range_check_selector_polys.get? idx
      = some (cs.range_check_selector_polys.get ⟨idx, hidx2⟩) := List.get?_eq_get hidx2
  have hgetD : cs.range_check_selector_polys.getD idx ⟨[], []⟩
      = cs.range_check_selector_polys.get ⟨idx, hidx2⟩ := by
    rw [List.getD_eq_getElem _ _ hidx2]
    rfl
  have hmain : verify_range_check S amb gate row w cs
      = (if isZeroPoly (rangeCheckZeroTestRemainder S gate.typ w cs) = true
         then some (Except.ok ())
         else some (Except.error ("Invalid " ++ gateTypeName gate.typ ++ " constraint"))) := by
    unfold verify_range_check permAggreg rangeCheckZeroTestRemainder
    rw [if_neg htyp2, hsub]
    simp only [hperm, if_true, hidx, hget, Option.getD_some, hgetD]
  refine ⟨?_, ?_⟩
  · rw [hmain]
    by_cases hz : isZeroPoly (rangeCheckZeroTestRemainder S gate.typ w cs) = true
    · simp [hz]
    · simp [hz]
  · intro hz
    rw [hmain, hz]
    simp

/-! ## C9: panic behaviour of the padding subtraction -/

/-- C9 (amended): if witness column 0 has more rows than the base domain's size, the
unwrapped `checked_sub` computing the padding length underflows and the call panics
(`none`) instead of returning an `Err` — for every gate type other than RangeCheck2,
whose early return precedes the subtraction.  Only column 0's length is inspected. -/
theorem verify_range_check_panics_on_long_column0 {F : Type} [Field F] [DecidableEq F]
    (S : Services F) (amb : Nat) (gate : CircuitGate F) (row : Nat)
    (w : Fin 15 → List F) (cs : ConstraintSystem F)
    (htyp : gate.typ ≠ GateType.RangeCheck2)
    (hlong : cs.domain.d1.length < (w 0).length) :
    verify_range_check S amb gate row w cs = none := by
  have hsub : checked_sub cs.domain.d1.length (w 0).length = none := by
    unfold checked_sub
    rw [if_neg (by omega)]
  unfold verify_range_check
  rw [if_neg htyp, hsub]

/-! ## C5: selector polynomials and their round-trip property -/

theorem getD_map_indicator {F : Type} [Field F] [DecidableEq F]
    (gates : List (CircuitGate F)) (gt : GateType) (i : Nat) :
    (gates.map (fun g => if g.typ = gt then (1 : F) else 0)).getD i 0
      = if h : i < gates.length then (if (gates.get ⟨i, h⟩).typ = gt then 1 else 0)
        else 0 := by
  by_cases h : i < gates.length
  · rw [dif_pos h, List.getD_eq_getElem _ _ (by simpa using h)]
    simp
  · rw [dif_neg h, List.getD_eq_default _ _ (by simpa using Nat.le_of_not_lt h)]

/-- C5: `selector_polynomials(gates, domain)` yields one selector per registered gate
type (RangeCheck0 and RangeCheck1 only; RangeCheck2 is excluded): the coefficient
form interpolates the 0/1 indicator sequence of the gate type over the base domain,
the `eval8` form is that coefficient polynomial evaluated over the extended domain,
and evaluating the coefficient form back at each base-domain point reproduces exactly
the 0 or 1 of the indicator sequence. -/
theorem selector_polynomials_spec {F : Type} [Field F] [DecidableEq F]
    (gates : List (CircuitGate F)) (domain : EvaluationDomains F)
    (hnd : domain.d1.Pairwise (fun a b => a ≠ b)) :
    circuit_gates = [GateType.RangeCheck0, GateType.RangeCheck1]
    ∧ (selector_polynomials gates domain).length = circuit_gates.length
    ∧ ∀ (k : Nat) (hk : k < circuit_gates.length)
        (hk2 : k < (selector_polynomials gates domain).length),
        ((selector_polynomials gates domain).get ⟨k, hk2⟩).coeff
            = lagrange domain.d1
                (gates.map (fun g => if g.typ = circuit_gates.get ⟨k, hk⟩ then (1 : F) else 0))
        ∧ ((selector_polynomials gates domain).get ⟨k, hk2⟩).eval8
            = domain.d8.map (polyEval ((selector_polynomials gates domain).get ⟨k, hk2⟩).coeff)
        ∧ ∀ (i : Nat) (hi : i < domain.d1.length),
            polyEval ((selector_polynomials gates domain).get ⟨k, hk2⟩).coeff
                (domain.d1.get ⟨i, hi⟩)
              = if h : i < gates.length
                then (if (gates.get ⟨i, h⟩).typ = circuit_gates.get ⟨k, hk⟩ then 1 else 0)
                else 0 := by
  refine ⟨rfl, by simp [selector_polynomials], ?_⟩
  intro k hk hk2
  have hco : ((selector_polynomials gates domain).get ⟨k, hk2⟩).coeff
      = lagrange domain.d1
          (gates.map (fun g => if g.typ = circuit_gates.get ⟨k, hk⟩ then (1 : F) else 0)) := by
    unfold selector_polynomials
    rw [List.get_eq_getElem, List.getElem_map]
    rfl
  have he8 : ((selector_polynomials gates domain).get ⟨k, hk2⟩).eval8
      = domain.d8.map (polyEval ((selector_polynomials gates domain).get ⟨k, hk2⟩).coeff) := by
    rw [hco]
    unfold selector_polynomials
    rw [List.get_eq_getElem, List.getElem_map]
    rfl
  refine ⟨hco, he8, ?_⟩
  intro i hi
  rw [hco, polyEval_lagrange_node domain.d1 _ hnd i hi]
  exact getD_map_indicator gates _ i

/-! ## C6: one-hot selector violations in the dynamic-selector engine -/

/-- C6 (amended): the engine rejects a one-hot selector violation (selector sum ≠ 1
at some row of the domain, covering both "none active" and "two active") exactly when
the sum-to-one selector constraint is part of the verified constraint list; the
rejection happens inside the same zero test as the instruction constraints, not in a
separate earlier phase. -/
theorem vmVerify_rejects_one_hot_violation {F : Type} [Field F] [DecidableEq F]
    (domainSize nSel : Nat) (constraints : List (VMExpr F)) (w : Column → Nat → F)
    (hmem : sumToOneConstraint F nSel ∈ constraints)
    (r : Nat) (hr : r < domainSize)
    (hviol : ((List.range nSel).map (fun j => w (Column.DynamicSelector j) r)).sum ≠ 1) :
    vmVerify domainSize constraints w = false := by
  apply decide_eq_false
  intro hall
  have h := hall _ hmem r hr
  unfold sumToOneConstraint at h
  simp only [evalVMExpr, evalVMExpr_selectorSumExpr] at h
  exact hviol (by linear_combination h)

/-- C6 counterexample: a witness with no dynamic selector active on any row (selector
sum 0 ≠ 1 everywhere) is accepted by the engine when the verified constraint list —
as in the small-circuit test — contains only the instruction constraint, so one-hot
violations are not rejected before (or at all without) the selector constraints. -/
theorem vmVerify_one_hot_violation_counterexample :
    (∀ r, r < 8 →
      ((List.range 2).map (fun j => smallCircuitWitness (Column.DynamicSelector j) r)).sum
        = 0)
    ∧ vmVerify 8 [smallCircuitConstraint] smallCircuitWitness = true := by
  exact ⟨by decide, by decide⟩

theorem vmVerify_rejects_one_hot_violation_witness :
    vmVerify 8 [sumToOneConstraint F11 2, smallCircuitConstraint] smallCircuitWitness
      = false :=
  vmVerify_rejects_one_hot_violation 8 2
    [sumToOneConstraint F11 2, smallCircuitConstraint] smallCircuitWitness
    (List.mem_cons_self _ _) 0 (by decide) (by decide)

/-! ## Witnesses and counterexamples on the concrete instances -/

theorem verify_range_check_ok_iff_zero_remainder_witness :
    verify_range_check trivialServices 0 gateRC0 0 wFour csW = some (Except.ok ()) := by
  have h := (verify_range_check_ok_iff_zero_remainder trivialServices 0 gateRC0 0 wFour csW
    (Or.inl rfl) (by decide) (by decide) (by decide)).1
  exact h.mpr (by decide)

/-- C1 counterexample: a RangeCheck0 gate and a fitting witness on which the claimed
equivalence fails — the witness violates a copy constraint, so the permutation step
fails and `verify_range_check` returns an error, even though the zero-test division
remainder is zero. -/
theorem verify_range_check_ok_iff_zero_remainder_counterexample :
    gateRC0.typ = GateType.RangeCheck0
    ∧ (∀ i : Fin 15, (wBad i).length ≤ csW.domain.d1.length)
    ∧ ¬(verify_range_check trivialServices 0 gateRC0 0 wBad csW = some (Except.ok ())
        ↔ isZeroPoly
            (rangeCheckZeroTestRemainder trivialServices GateType.RangeCheck0 wBad csW)
          = true) := by
  exact ⟨rfl, by decide, by decide⟩

theorem verify_range_check_perm_failure_witness :
    verify_range_check trivialServices 0 gateRC0 0 (bumpCell wFour (colOf 5) 0) csW
      = some (Except.error "Invalid RangeCheck0 constraint - permutation failed") := by
  have h := (verify_range_check_perm_failure trivialServices 0 gateRC0 0 wFour csW
    (Or.inl rfl) 0 (by decide) 5 (by decide) (by decide) (by decide) (by decide)).1
  exact h

/-- C3 counterexample: on the same witness and constraint system, the RangeCheck2
outcome is the same plain `Ok(())` value as a genuinely passing RangeCheck0
verification — implicit success, with no `UnimplementedGateFamily` marker. -/
theorem verify_range_check_rangecheck2_counterexample :
    verify_range_check trivialServices 0 gateRC2 0 wFour csW = some (Except.ok ())
    ∧ verify_range_check trivialServices 0 gateRC0 0 wFour csW = some (Except.ok ())
    ∧ verify_range_check trivialServices 0 gateRC2 0 wFour csW
        = verify_range_check trivialServices 0 gateRC0 0 wFour csW := by
  exact ⟨rfl, by decide, by decide⟩

theorem verify_range_check_panics_on_long_column0_witness :
    verify_range_check trivialServices 0 gateRC0 0 wLong csOne = none :=
  verify_range_check_panics_on_long_column0 trivialServices 0 gateRC0 0 wLong csOne
    (by decide) (by decide)

/-- C9 counterexample: a witness whose column 1 exceeds the base-domain size while
column 0 fits does not panic — the padding subtraction only inspects column 0, and
the call completes normally. -/
theorem verify_range_check_long_other_column_counterexample :
    csOne.domain.d1.length < (wMixed 1).length
    ∧ verify_range_check trivialServices 0 gateRC0 0 wMixed csOne
        = some (Except.ok ()) := by
  exact ⟨by decide, by decide⟩

theorem selector_polynomials_spec_witness :
    polyEval
        ((selector_polynomials rcGates (⟨[0, 1, 2, 3], []⟩ : EvaluationDomains F11)).get
          ⟨0, by decide⟩).coeff
        ((⟨[0, 1, 2, 3], []⟩ : EvaluationDomains F11).d1.get ⟨0, by decide⟩) = 1 := by
  have h := ((selector_polynomials_spec rcGates
      (⟨[0, 1, 2, 3], []⟩ : EvaluationDomains F11) (by decide)).2.2
      0 (by decide) (by decide)).2.2 0 (by decide)
  rw [h]
  decide
